import Mathlib

/-!
Verification of the clue-ai client core (`src/app/page.tsx`): the locator
text parser `parseLocatorText`, the padding post-processing, the history
cap, the submission orchestration in `onHelp` / `runLocateLines`, and the
line highlight classifier.  Strings are modelled as `List Char`; JavaScript
numbers that hold line counts and line numbers are modelled as `Int`.
-/

namespace ClueAi

/-- Character class of the JavaScript regex `\s` (ECMAScript WhiteSpace
together with LineTerminator), which is also exactly the set of characters
removed by `String.prototype.trim`. -/
def spaceChars : List Char :=
  ['\t', '\n', '\u000B', '\u000C', '\r', ' ', ' ', ' ',
   ' ', ' ', ' ', ' ', ' ', ' ', ' ',
   ' ', ' ', ' ', ' ', ' ', ' ', ' ',
   ' ', '　', '﻿']

def isSpace (c : Char) : Bool := c ∈ spaceChars

/-- ECMAScript LineTerminator characters: those not matched by `.`. -/
def isLineTerminator (c : Char) : Bool :=
  c = '\n' ∨ c = '\r' ∨ c = ' ' ∨ c = ' '

def isDigit (c : Char) : Bool := '0' ≤ c ∧ c ≤ '9'

/-- The range separator characters of the bullet regex: `[-–]`. -/
def isDash (c : Char) : Bool := c = '-' ∨ c = '–'

/-- Character-wise model of `String.prototype.toUpperCase` on the ASCII
range (sufficient for the `NOTE:` prefix test of the parser). -/
def jsUpper (c : Char) : Char :=
  if 'a' ≤ c ∧ c ≤ 'z' then Char.ofNat (c.toNat - 32) else c

/-- Model of `String.prototype.trim`: strip `\s` characters on both ends. -/
def jsTrim (l : List Char) : List Char :=
  ((l.dropWhile isSpace).reverse.dropWhile isSpace).reverse

/-- Model of `String.prototype.trimStart`. -/
def jsTrimStart (l : List Char) : List Char := l.dropWhile isSpace

/-- Model of `text.split(/\r?\n/)`: cut at each `\r\n` or lone `\n`
(leftmost match, a lone `\r` is not a separator). -/
def splitLines : List Char → List (List Char)
  | [] => [[]]
  | '\r' :: '\n' :: rest =>
    match splitLines rest with
    | [] => [[]]
    | ls => [] :: ls
  | '\n' :: rest =>
    match splitLines rest with
    | [] => [[]]
    | ls => [] :: ls
  | c :: rest =>
    match splitLines rest with
    | [] => [[c]]
    | l :: ls => (c :: l) :: ls

/-- Numeric value of a digit group, modelling `Number(m[i])` on a string
matched by `\d+`. -/
def digitsVal (ds : List Char) : Int :=
  ds.foldl (fun a c => 10 * a + ((c.toNat : Int) - 48)) 0

/-- The three capture groups of a successful match of the bullet regex
`/^\s*-\s*(\d+)(?:\s*[-–]\s*(\d+))?\s*\|\s*(.+)$/i`. -/
structure BulletMatch where
  g1 : List Char
  g2 : Option (List Char)
  g3 : List Char
  deriving DecidableEq, Repr

/-- Match of the tail `\s*(.+)$` of the bullet regex against `w`, with the
backtracking of the greedy `\s*` against the one-or-more requirement of
`(.+)` (`.` does not match line terminators). -/
def matchTail (w : List Char) : Option (List Char) :=
  let b := w.dropWhile isSpace
  if b.isEmpty then
    match w.getLast? with
    | some c => if isLineTerminator c then none else some [c]
    | none => none
  else if b.any isLineTerminator then none else some b

/-- Deterministic implementation of a match of the anchored bullet regex
`/^\s*-\s*(\d+)(?:\s*[-–]\s*(\d+))?\s*\|\s*(.+)$/i` against a whole line.
Backtracking into a digit group or the leading `\s*` can never succeed
(the follow-up token is never a digit or a space), and when the optional
range group starts with a dash the group-skipping alternative always fails
at `\|`; so a single pass decides the match. -/
def matchBullet (line : List Char) : Option BulletMatch :=
  match line.dropWhile isSpace with
  | '-' :: r1 =>
    let r2 := r1.dropWhile isSpace
    let d1 := r2.takeWhile isDigit
    let r3 := r2.dropWhile isDigit
    if d1.isEmpty then none
    else
      let s := r3.dropWhile isSpace
      let gr : Option (List Char) × List Char :=
        match s with
        | c :: t =>
          if isDash c then
            let t2 := t.dropWhile isSpace
            let d2 := t2.takeWhile isDigit
            if d2.isEmpty then (none, r3) else (some d2, t2.dropWhile isDigit)
          else (none, r3)
        | [] => (none, r3)
      match gr.2.dropWhile isSpace with
      | '|' :: w =>
        match matchTail w with
        | some g3 => some ⟨d1, gr.1, g3⟩
        | none => none
      | _ => none
  | _ => none

/-- Model of the `LineHint` record of `page.tsx`: a start line, an end line,
and an optional reason string. -/
structure LineHint where
  start : Int
  «end» : Int
  reason : Option (List Char)
  deriving DecidableEq, Repr

/-- The `NOTE:` prefix tested by `line.toUpperCase().startsWith("NOTE:")`. -/
def noteKey : List Char := ['N', 'O', 'T', 'E', ':']

def isNoteLine (line : List Char) : Bool :=
  noteKey.isPrefixOf (line.map jsUpper)

/-- One iteration of the `forEach` body of `parseLocatorText`: the state is
the pair (ranges so far, note so far). -/
def parseStep (st : List LineHint × List Char) (line : List Char) :
    List LineHint × List Char :=
  match matchBullet line with
  | some m =>
    let start := digitsVal m.g1
    if 0 < start then
      let endRaw := match m.g2 with | some d => digitsVal d | none => start
      let normalizedEnd := if start ≤ endRaw then endRaw else start
      (st.1 ++ [⟨start, normalizedEnd, some (jsTrim m.g3)⟩], st.2)
    else st
  | none =>
    if isNoteLine line then (st.1, jsTrim (line.drop 5)) else st

/-- Ranges and note accumulated over all lines of the input text. -/
def parseState (text : List Char) : List LineHint × List Char :=
  (splitLines text).foldl parseStep ([], [])

/-- The padding post-processing applied to each parsed range. -/
def padRange (totalLines : Int) (r : LineHint) : LineHint :=
  if totalLines ≤ 0 then r
  else { r with start := max 1 (r.start - 1),
                «end» := min totalLines (max r.«end» r.start + 1) }

structure LocatorResult where
  ranges : List LineHint
  note : List Char
  deriving DecidableEq, Repr

/-- Model of `parseLocatorText` of `page.tsx`. -/
def parseLocatorText (text : List Char) (totalLines : Int) : LocatorResult :=
  let st := parseState text
  { ranges := st.1.map (padRange totalLines), note := st.2 }

/-- Refinement comparison definition, following the spec's words for the
note output: the trimmed text after the `NOTE:` prefix of the last line
carrying that prefix among the lines that do not match the bullet pattern,
and the empty string when no such line exists. -/
def specNote (text : List Char) : List Char :=
  match ((splitLines text).filter fun l =>
      (matchBullet l).isNone && isNoteLine l).getLast? with
  | some l => jsTrim (l.drop 5)
  | none => []

/-- The three rendering classes of the highlight overlay. -/
inductive LineClass where
  | hit
  | context
  | none
  deriving DecidableEq, Repr

/-- The per-line classification of the highlight overlay in `Page`
(`isPrimary` / `isContext` / neither). -/
def classifyLine (lineHints : List LineHint) (totalLines lineNumber : Int) :
    LineClass :=
  let isPrimary := lineHints.any fun range =>
    decide (range.start ≤ lineNumber) && decide (lineNumber ≤ range.«end»)
  let isContext := lineHints.any fun range =>
    (decide (lineNumber = range.start - 1) && decide (1 ≤ lineNumber)) ||
    (decide (lineNumber = range.«end» + 1) && decide (lineNumber ≤ totalLines))
  if isPrimary then .hit else if isContext then .context else .none

inductive SubjectMode where
  | cs
  | math
  | science
  | english
  | other
  deriving DecidableEq, Repr

structure ImageRef where
  name : List Char
  src : List Char
  deriving DecidableEq, Repr

/-- Model of the `HistoryItem` record of `page.tsx`. -/
structure HistoryItem where
  id : Int
  timestamp : List Char
  mode : SubjectMode
  ask : List Char
  code : List Char
  images : List ImageRef
  aiText : List Char
  deriving DecidableEq, Repr

/-- The history update of `onHelp` (both the success and the failure path):
prepend the new snapshot and cap the list at 10 items. -/
def appendHistory (item : HistoryItem) (prev : List HistoryItem) :
    List HistoryItem :=
  (item :: prev).take 10

/-- Observable outcome of one `fetch` to an API route: either the request
(or `res.json()`) rejected with an exception carrying an optional message,
or a response arrived with a status flag (`res.ok`) and the optional
`error` and `aiText` fields of the decoded JSON body. -/
inductive FetchOutcome where
  | fail (msg : Option (List Char))
  | resp (ok : Bool) (error : Option (List Char)) (aiText : Option (List Char))
  deriving DecidableEq, Repr

/-- Model of the JavaScript `x || d` idiom on an optional string `x`:
the default wins when `x` is absent or empty. -/
def jsOr (v : Option (List Char)) (d : List Char) : List Char :=
  match v with
  | some s => if s = [] then d else s
  | none => d

/-- Model of `extractCodeFromImages` of `page.tsx`, as a function of the fetch
outcome: a non-ok response throws `data?.error || "Failed to extract code
from image"`, an empty trimmed `aiText` throws `"No text extracted from
image"`, otherwise the trimmed text is returned. -/
def extractCodeFromImages (svc : FetchOutcome) :
    Except (Option (List Char)) (List Char) :=
  match svc with
  | .fail m => .error m
  | .resp ok err ai =>
    if ok then
      let extracted := jsTrim (ai.getD [])
      if extracted = [] then .error (some ("No text extracted from image".toList))
      else .ok extracted
    else .error (some (jsOr err ("Failed to extract code from image".toList)))

/-- The `/api/help` call in `onHelp`: a non-ok response throws
`data?.error || "Request failed"`, otherwise `(data.aiText ?? "")`
with leading whitespace trimmed is the hint text. -/
def helpRequest (svc : FetchOutcome) : Except (Option (List Char)) (List Char) :=
  match svc with
  | .fail m => .error m
  | .resp ok err ai =>
    if ok then .ok (jsTrimStart (ai.getD []))
    else .error (some (jsOr err ("Request failed".toList)))

/-- The `/api/locate` call in `runLocateLines`: a non-ok response throws
`data?.error || "Request failed"`, otherwise the `aiText` string (or `""`
when it is not a string). -/
def locateRequest (svc : FetchOutcome) : Except (Option (List Char)) (List Char) :=
  match svc with
  | .fail m => .error m
  | .resp ok err ai =>
    if ok then .ok (ai.getD [])
    else .error (some (jsOr err ("Request failed".toList)))

/-- Observable outcome of `runLocateLines`: whether the locate request was
issued, and the resulting line-hint overlay state. -/
structure LocateOutcome where
  requested : Bool
  lineHints : List LineHint
  lineHintNote : List Char
  deriving DecidableEq, Repr

/-- Model of `runLocateLines` of `page.tsx`, as a function of the working text and
the fetch outcome of the locate endpoint. -/
def runLocateLines (codeToUse : List Char) (svc : FetchOutcome) : LocateOutcome :=
  let lines := splitLines codeToUse
  if lines.length = 0 ∨ codeToUse.length = 0 then ⟨false, [], []⟩
  else
    match locateRequest svc with
    | .error m =>
      ⟨true, [], "Could not locate lines: ".toList ++ jsOr m ("unknown error".toList)⟩
    | .ok aiText =>
      let parsed := parseLocatorText aiText
        (if lines.length = 0 then 1 else (lines.length : Int))
      ⟨true, parsed.ranges,
        if parsed.note ≠ [] then parsed.note
        else if parsed.ranges = [] then "No line ranges returned.".toList else []⟩

/-- The extraction phase of `onHelp`: when images are present and the code
box is empty (`images.length > 0 && (!code || code.trim() === "")`), the
working text comes from `extractCodeFromImages`, otherwise it is the code
box content. -/
def resolveWorkingCode (code : List Char) (images : List ImageRef)
    (svc : FetchOutcome) : Except (Option (List Char)) (List Char) :=
  if 0 < images.length ∧ (code = [] ∨ jsTrim code = []) then
    extractCodeFromImages svc
  else .ok code

/-- The error text built in the catch branch of `onHelp`:
`Oops — ` followed by the exception message, or by the fixed fallback
when no message is available. -/
def oopsMsg (m : Option (List Char)) : List Char :=
  "Oops — ".toList ++ jsOr m ("something went wrong.".toList)

/-- Snapshot copy of the image list (`images.map((img) => ({ ...img }))`). -/
def snapshotImages (images : List ImageRef) : List ImageRef :=
  images.map fun img => ⟨img.name, img.src⟩

/-- Observable outcome of one `onHelp` submission. -/
structure HelpOutcome where
  aiText : List Char
  history : List HistoryItem
  lineHints : List LineHint
  lineHintNote : List Char
  locateRequested : Bool
  deriving DecidableEq, Repr

/-- Model of `onHelp` of `page.tsx`, as a function of the current inputs, the three
fetch outcomes, and the previous history and overlay state.  `id` and
`timestamp` stand for the `Date.now()` and `toLocaleString()` readings. -/
def onHelp (code ask : List Char) (images : List ImageRef) (mode : SubjectMode)
    (id : Int) (timestamp : List Char) (esvc hsvc lsvc : FetchOutcome)
    (prevHistory : List HistoryItem) (prevHints : List LineHint)
    (prevNote : List Char) : HelpOutcome :=
  match resolveWorkingCode code images esvc with
  | .error m =>
    let errMsg := oopsMsg m
    ⟨errMsg,
     appendHistory ⟨id, timestamp, mode, ask, code, snapshotImages images, errMsg⟩
       prevHistory,
     prevHints, prevNote, false⟩
  | .ok workingCode =>
    match helpRequest hsvc with
    | .error m =>
      let errMsg := oopsMsg m
      ⟨errMsg,
       appendHistory ⟨id, timestamp, mode, ask, code, snapshotImages images, errMsg⟩
         prevHistory,
       prevHints, prevNote, false⟩
    | .ok cleanText =>
      let newHistory :=
        appendHistory
          ⟨id, timestamp, mode, ask, workingCode, snapshotImages images, cleanText⟩
          prevHistory
      let loc := runLocateLines workingCode lsvc
      ⟨cleanText, newHistory, loc.lineHints, loc.lineHintNote, loc.requested⟩

/-! ### Supporting lemmas -/

theorem splitLines_ne_nil (l : List Char) : splitLines l ≠ [] := by
  rw [splitLines.eq_def]
  split <;> (try split) <;> simp

theorem parseStep_snd_of_not_note (st : List LineHint × List Char)
    (line : List Char)
    (h : ((matchBullet line).isNone && isNoteLine line) = false) :
    (parseStep st line).2 = st.2 := by
  unfold parseStep
  cases hmb : matchBullet line with
  | some m => simp only; split <;> rfl
  | none =>
    have hn : isNoteLine line = false := by simpa [hmb] using h
    simp [hn]

theorem parseStep_ranges_invariant (st : List LineHint × List Char)
    (line : List Char)
    (h : ∀ r ∈ st.1, 1 ≤ r.start ∧ r.start ≤ r.«end») :
    ∀ r ∈ (parseStep st line).1, 1 ≤ r.start ∧ r.start ≤ r.«end» := by
  cases hmb : matchBullet line with
  | none =>
    simp only [parseStep, hmb]
    split
    · exact h
    · exact h
  | some m =>
    simp only [parseStep, hmb]
    split
    next hs =>
      intro r hr
      rcases List.mem_append.mp hr with hr | hr
      · exact h r hr
      · rcases List.mem_singleton.mp hr with rfl
        constructor
        · dsimp only
          omega
        · dsimp only
          split <;> omega
    next => exact h

theorem foldl_parseStep_ranges_invariant (ls : List (List Char))
    (st : List LineHint × List Char)
    (h : ∀ r ∈ st.1, 1 ≤ r.start ∧ r.start ≤ r.«end») :
    ∀ r ∈ (ls.foldl parseStep st).1, 1 ≤ r.start ∧ r.start ≤ r.«end» := by
  induction ls generalizing st with
  | nil => exact h
  | cons l ls ih => exact ih _ (parseStep_ranges_invariant _ _ h)

theorem parseState_ranges_invariant (text : List Char) :
    ∀ r ∈ (parseState text).1, 1 ≤ r.start ∧ r.start ≤ r.«end» :=
  foldl_parseStep_ranges_invariant _ _ (by simp)

theorem foldl_parseStep_note (ls : List (List Char)) (rs : List LineHint)
    (n : List Char) :
    (ls.foldl parseStep (rs, n)).2 =
      match (ls.filter fun l => (matchBullet l).isNone && isNoteLine l).getLast? with
      | some l => jsTrim (l.drop 5)
      | none => n := by
  induction ls generalizing rs n with
  | nil => rfl
  | cons l ls ih =>
    by_cases hp : ((matchBullet l).isNone && isNoteLine l) = true
    · obtain ⟨h1, h2⟩ := Bool.and_eq_true_iff.mp hp
      have hmb : matchBullet l = none := Option.isNone_iff_eq_none.mp h1
      have hps : parseStep (rs, n) l = (rs, jsTrim (l.drop 5)) := by
        simp [parseStep, hmb, h2]
      rw [List.foldl_cons, hps, ih, List.filter_cons]
      simp only [hp, if_true]
      cases hfl : (ls.filter fun l => (matchBullet l).isNone && isNoteLine l) with
      | nil => simp
      | cons y ys =>
        rw [List.getLast?_cons_cons]
        cases hgl : (y :: ys).getLast? with
        | none => exact absurd (List.getLast?_eq_none_iff.mp hgl) (by simp)
        | some z => rfl
    · have hps2 : (parseStep (rs, n) l).2 = n :=
        parseStep_snd_of_not_note (rs, n) l (by simpa using hp)
      cases hP : parseStep (rs, n) l with
      | mk a b =>
        have hb : b = n := by rw [← hps2, hP]
        subst hb
        rw [List.foldl_cons, hP, ih, List.filter_cons]
        simp only [Bool.not_eq_true] at hp
        simp [hp]

theorem parseState_note (text : List Char) :
    (parseState text).2 = specNote text := by
  unfold parseState specNote
  rw [foldl_parseStep_note]

theorem jsUpper_space {c : Char} (h : isSpace c = true) : jsUpper c = c := by
  have hall : ∀ x ∈ spaceChars, jsUpper x = x := by decide
  exact hall c (by simpa [isSpace] using h)

theorem jsUpper_space_ne_N {c : Char} (h : isSpace c = true) : jsUpper c ≠ 'N' := by
  have hall : ∀ x ∈ spaceChars, jsUpper x ≠ 'N' := by decide
  exact hall c (by simpa [isSpace] using h)

theorem isSpace_of_jsUpper_N {c : Char} (h : jsUpper c = 'N') : isSpace c = false := by
  by_contra hc
  exact jsUpper_space_ne_N (by simpa using hc) h

theorem ne_dash_of_jsUpper_N {c : Char} (h : jsUpper c = 'N') : c ≠ '-' := by
  intro hc
  subst hc
  exact absurd h (by decide)

theorem dropWhile_isSpace_append (pre xs : List Char)
    (h : ∀ c ∈ pre, isSpace c = true) :
    (pre ++ xs).dropWhile isSpace = xs.dropWhile isSpace := by
  induction pre with
  | nil => rfl
  | cons c pre ih =>
    have hc := h c (List.mem_cons_self c pre)
    simp only [List.cons_append, List.dropWhile_cons, hc, if_true]
    exact ih fun d hd => h d (List.mem_cons_of_mem c hd)

/-! ### Claim theorems -/

/-- C1 (counterexample): the invariant `LineHint.start ≤ LineHint.end`
fails after padding — at input text `"- 5 | x"` with `totalLines = 1` the
single output hint has `start = 4` and `end = 1`. -/
theorem padding_can_reverse_range :
    (parseLocatorText ("- 5 | x".toList) 1).ranges
      = [⟨4, 1, some ("x".toList)⟩]
    ∧ ((parseLocatorText ("- 5 | x".toList) 1).ranges.all fun r =>
        decide (r.start ≤ r.«end»)) = false := by
  decide

/-- C1 (amended): every `LineHint` returned by the locator text parser
satisfies `start ≤ end`, provided `totalLines ≤ 0` (ranges pass through
unpadded) or every parsed bullet's start is at most `totalLines + 1`;
padding a bullet whose start exceeds `totalLines + 1` can reverse the
range. -/
theorem ranges_ordered_for_inbounds_hints :
    ∀ (text : List Char) (L : Int),
      (L ≤ 0 ∨ ∀ r ∈ (parseState text).1, r.start ≤ L + 1) →
      ∀ r ∈ (parseLocatorText text L).ranges, r.start ≤ r.«end» := by
  intro text L hb r hr
  simp only [parseLocatorText] at hr
  rcases List.mem_map.mp hr with ⟨r0, hr0, rfl⟩
  have hinv := parseState_ranges_invariant text r0 hr0
  unfold padRange
  by_cases hL : L ≤ 0
  · rw [if_pos hL]
    exact hinv.2
  · rw [if_neg hL]
    rcases hb with hb | hb
    · omega
    · have hbd := hb r0 hr0
      show max 1 (r0.start - 1) ≤ min L (max r0.«end» r0.start + 1)
      omega

/-- C1 (witness): the amended theorem applied to the text `"- 2-3 | y"`
with `totalLines = 5`, whose only parsed bullet starts within bounds. -/
theorem ranges_ordered_for_inbounds_hints_witness :
    ((5 : Int) ≤ 0 ∨ ∀ r ∈ (parseState ("- 2-3 | y".toList)).1, r.start ≤ (5 : Int) + 1)
    ∧ ∀ r ∈ (parseLocatorText ("- 2-3 | y".toList) 5).ranges, r.start ≤ r.«end» := by
  have hb : ((5 : Int) ≤ 0 ∨ ∀ r ∈ (parseState ("- 2-3 | y".toList)).1, r.start ≤ (5 : Int) + 1) :=
    Or.inr (by decide)
  exact ⟨hb, ranges_ordered_for_inbounds_hints _ 5 hb⟩

/-- C2: the well-formed bullet `"- 4-6 | check the loop"` with any total
line count ≥ 8 parses to the single hint `[3, 7]` with reason
`"check the loop"`, and the single-number bullet `"- 10 | note"` with any
total line count ≥ 12 parses to the single hint `[9, 11]`. -/
theorem wellformed_bullet_examples :
    (∀ L : Int, 8 ≤ L →
      (parseLocatorText ("- 4-6 | check the loop".toList) L).ranges
        = [⟨3, 7, some ("check the loop".toList)⟩])
    ∧ (∀ L : Int, 12 ≤ L →
      (parseLocatorText ("- 10 | note".toList) L).ranges
        = [⟨9, 11, some ("note".toList)⟩]) := by
  constructor
  · intro L hL
    have h1 : parseState ("- 4-6 | check the loop".toList)
        = ([⟨4, 6, some ("check the loop".toList)⟩], []) := by decide
    simp only [parseLocatorText, h1, List.map_cons, List.map_nil]
    unfold padRange
    rw [if_neg (by omega)]
    simp only [List.cons.injEq, LineHint.mk.injEq, and_true]
    omega
  · intro L hL
    have h1 : parseState ("- 10 | note".toList)
        = ([⟨10, 10, some ("note".toList)⟩], []) := by decide
    simp only [parseLocatorText, h1, List.map_cons, List.map_nil]
    unfold padRange
    rw [if_neg (by omega)]
    simp only [List.cons.injEq, LineHint.mk.injEq, and_true]
    omega

/-- C2 (witness): the theorem applied at the concrete total line counts 8
and 12. -/
theorem wellformed_bullet_examples_witness :
    ((8 : Int) ≤ 8
      ∧ (parseLocatorText ("- 4-6 | check the loop".toList) 8).ranges
          = [⟨3, 7, some ("check the loop".toList)⟩])
    ∧ ((12 : Int) ≤ 12
      ∧ (parseLocatorText ("- 10 | note".toList) 12).ranges
          = [⟨9, 11, some ("note".toList)⟩]) :=
  ⟨⟨le_refl 8, wellformed_bullet_examples.1 8 (le_refl 8)⟩,
   ⟨le_refl 12, wellformed_bullet_examples.2 12 (le_refl 12)⟩⟩

/-- C3 (counterexample): for the reversed-range bullet `"- 8-5 | x"` with
`totalLines = 0`, the single output hint has `end = 8` (the start), not 5
as the claim states. -/
theorem reversed_range_end_not_five :
    (parseLocatorText ("- 8-5 | x".toList) 0).ranges
      = [⟨8, 8, some ("x".toList)⟩]
    ∧ ((parseLocatorText ("- 8-5 | x".toList) 0).ranges.all fun r =>
        decide (r.«end» ≠ 5)) = true := by
  decide

/-- C3 (amended): for the reversed-range bullet `"- 8-5 | x"` before
padding (totalLines = 0), the parser yields exactly one hint whose end is
normalized to the start, the normalized end value being 8. -/
theorem reversed_range_collapses_to_start :
    (parseLocatorText ("- 8-5 | x".toList) 0).ranges
      = [⟨8, 8, some ("x".toList)⟩] := by
  decide

/-- C4: for positive total line count every padded hint satisfies
`1 ≤ start` and `end ≤ totalLines`, and at `totalLines = 0` the ranges
pass through exactly as parsed. -/
theorem padding_respects_document_bounds :
    ∀ (text : List Char) (L : Int),
      (0 < L → ∀ r ∈ (parseLocatorText text L).ranges, 1 ≤ r.start ∧ r.«end» ≤ L)
      ∧ (parseLocatorText text 0).ranges = (parseState text).1 := by
  intro text L
  constructor
  · intro hL r hr
    simp only [parseLocatorText] at hr
    rcases List.mem_map.mp hr with ⟨r0, hr0, rfl⟩
    unfold padRange
    rw [if_neg (by omega)]
    exact ⟨le_max_left 1 _, min_le_left L _⟩
  · have hid : padRange 0 = id := funext fun r => by simp [padRange]
    simp [parseLocatorText, hid]

/-- C4 (witness): the theorem applied to the text `"- 5 | x"` with total
line counts 3 and 0. -/
theorem padding_respects_document_bounds_witness :
    ((0 : Int) < 3
      ∧ ∀ r ∈ (parseLocatorText ("- 5 | x".toList) 3).ranges, 1 ≤ r.start ∧ r.«end» ≤ 3)
    ∧ (parseLocatorText ("- 5 | x".toList) 0).ranges
        = (parseState ("- 5 | x".toList)).1 :=
  ⟨⟨by norm_num, (padding_respects_document_bounds ("- 5 | x".toList) 3).1 (by norm_num)⟩,
   (padding_respects_document_bounds ("- 5 | x".toList) 0).2⟩

/-- C5: the note output is the trimmed text after the case-insensitive
`NOTE:` prefix of the last such line among the lines that do not match the
bullet pattern (empty when no such line exists), and the two-line input
`"LINES:\nNOTE: none"` yields no ranges and note `"none"`. -/
theorem note_is_last_note_line :
    (∀ (text : List Char) (L : Int), (parseLocatorText text L).note = specNote text)
    ∧ (parseLocatorText ("LINES:\nNOTE: none".toList) 0).ranges = []
    ∧ (parseLocatorText ("LINES:\nNOTE: none".toList) 0).note = "none".toList := by
  refine ⟨?_, by decide, by decide⟩
  intro text L
  simp only [parseLocatorText]
  exact parseState_note text

/-- C5 (witness): the general part of the theorem applied to a concrete
text with two note lines, the later one winning. -/
theorem note_is_last_note_line_witness :
    (parseLocatorText ("NOTE: a\nNOTE: b".toList) 4).note
      = specNote ("NOTE: a\nNOTE: b".toList) :=
  note_is_last_note_line.1 ("NOTE: a\nNOTE: b".toList) 4

/-- C6: for a history of at most 10 items, the update prepends exactly one
new item, the result stays at most 10 long, lists shorter than 10 are kept
whole, and a full list drops exactly its oldest (last) entry with the
newest-first order preserved. -/
theorem history_capped_at_ten :
    ∀ (item : HistoryItem) (prev : List HistoryItem), prev.length ≤ 10 →
      appendHistory item prev = item :: prev.take 9
      ∧ (appendHistory item prev).length ≤ 10
      ∧ (prev.length ≤ 9 → appendHistory item prev = item :: prev)
      ∧ (prev.length = 10 → appendHistory item prev = item :: prev.dropLast) := by
  intro item prev _
  refine ⟨rfl, List.length_take_le 10 _, ?_, ?_⟩
  · intro h9
    exact List.take_of_length_le (by simpa using Nat.succ_le_succ h9)
  · intro h10
    show (item :: prev).take 10 = item :: prev.dropLast
    rw [List.dropLast_eq_take, h10]
    rfl

/-- Fixed concrete history item used by the C6 witness. -/
def sampleItem : HistoryItem := ⟨0, [], .cs, [], [], [], []⟩

/-- C6 (witness): the theorem applied to a full 10-item history. -/
theorem history_capped_at_ten_witness :
    (List.replicate 10 sampleItem).length ≤ 10
    ∧ appendHistory sampleItem (List.replicate 10 sampleItem)
        = sampleItem :: (List.replicate 10 sampleItem).take 9 := by
  have h := history_capped_at_ten sampleItem (List.replicate 10 sampleItem) (by simp)
  exact ⟨by simp, h.1⟩

/-- C7: an extraction failure or a hint failure aborts the submission — no
locator request is issued, the response text becomes `Oops — ` plus the
failure's message (or the fixed fallback), and a history entry carrying
that text is recorded; a locator-only failure leaves the hint text and the
history untouched and only clears the overlay and annotates it with an
error note. -/
theorem onHelp_error_propagation :
    ∀ (code ask : List Char) (images : List ImageRef) (mode : SubjectMode)
      (id : Int) (ts : List Char) (esvc hsvc lsvc : FetchOutcome)
      (prevH : List HistoryItem) (prevLH : List LineHint) (prevN : List Char),
      (∀ m, resolveWorkingCode code images esvc = .error m →
        onHelp code ask images mode id ts esvc hsvc lsvc prevH prevLH prevN
          = ⟨oopsMsg m,
             appendHistory ⟨id, ts, mode, ask, code, snapshotImages images, oopsMsg m⟩
               prevH,
             prevLH, prevN, false⟩)
      ∧ (∀ w m, resolveWorkingCode code images esvc = .ok w →
          helpRequest hsvc = .error m →
          onHelp code ask images mode id ts esvc hsvc lsvc prevH prevLH prevN
            = ⟨oopsMsg m,
               appendHistory ⟨id, ts, mode, ask, code, snapshotImages images, oopsMsg m⟩
                 prevH,
               prevLH, prevN, false⟩)
      ∧ (∀ w t m, resolveWorkingCode code images esvc = .ok w →
          helpRequest hsvc = .ok t → w ≠ [] → locateRequest lsvc = .error m →
          onHelp code ask images mode id ts esvc hsvc lsvc prevH prevLH prevN
            = ⟨t,
               appendHistory ⟨id, ts, mode, ask, w, snapshotImages images, t⟩ prevH,
               [], "Could not locate lines: ".toList ++ jsOr m ("unknown error".toList),
               true⟩) := by
  intro code ask images mode id ts esvc hsvc lsvc prevH prevLH prevN
  refine ⟨?_, ?_, ?_⟩
  · intro m hm
    simp only [onHelp, hm]
  · intro w m hw hm
    simp only [onHelp, hw, hm]
  · intro w t m hw ht hne hm
    have hrun : runLocateLines w lsvc
        = ⟨true, [], "Could not locate lines: ".toList ++ jsOr m ("unknown error".toList)⟩ := by
      unfold runLocateLines
      rw [if_neg, hm]
      intro hor
      rcases hor with h0 | h0
      · exact splitLines_ne_nil w (List.length_eq_zero.mp h0)
      · exact hne (List.length_eq_zero.mp h0)
    simp only [onHelp, hw, ht, hrun]

/-- C7 (witness): the hint-failure conjunct of the theorem applied to a
concrete submission whose hint endpoint answers non-ok with message
`boom`, and the locator-failure conjunct applied to a concrete submission
whose locate endpoint answers non-ok with message `nope`. -/
theorem onHelp_error_propagation_witness :
    (resolveWorkingCode ("x".toList) [] (.resp true none none) = .ok ("x".toList)
      ∧ helpRequest (.resp false (some ("boom".toList)) none)
          = .error (some ("boom".toList))
      ∧ onHelp ("x".toList) [] [] .cs 0 [] (.resp true none none)
          (.resp false (some ("boom".toList)) none) (.resp true none none) [] [] []
          = ⟨oopsMsg (some ("boom".toList)),
             appendHistory
               ⟨0, [], .cs, [], "x".toList, snapshotImages [], oopsMsg (some ("boom".toList))⟩
               [],
             [], [], false⟩)
    ∧ (helpRequest (.resp true none (some ("hint".toList))) = .ok ("hint".toList)
      ∧ locateRequest (.resp false (some ("nope".toList)) none)
          = .error (some ("nope".toList))
      ∧ onHelp ("x".toList) [] [] .cs 0 [] (.resp true none none)
          (.resp true none (some ("hint".toList)))
          (.resp false (some ("nope".toList)) none) [] [] []
          = ⟨"hint".toList,
             appendHistory
               ⟨0, [], .cs, [], "x".toList, snapshotImages [], "hint".toList⟩ [],
             [], "Could not locate lines: ".toList ++ jsOr (some ("nope".toList)) ("unknown error".toList),
             true⟩) := by
  refine ⟨⟨rfl, rfl, ?_⟩, ⟨rfl, rfl, ?_⟩⟩
  · exact (onHelp_error_propagation ("x".toList) [] [] .cs 0 []
      (.resp true none none) (.resp false (some ("boom".toList)) none)
      (.resp true none none) [] [] []).2.1 ("x".toList) (some ("boom".toList))
      rfl rfl
  · exact (onHelp_error_propagation ("x".toList) [] [] .cs 0 []
      (.resp true none none) (.resp true none (some ("hint".toList)))
      (.resp false (some ("nope".toList)) none) [] [] []).2.2 ("x".toList)
      ("hint".toList) (some ("nope".toList)) rfl rfl (by decide) rfl

/-- C8: for a line number within the document, the classifier yields `hit`
iff the line is inside some hint's inclusive range, `context` iff it is not
a hit but is an immediate neighbor of some hint, and `none` otherwise — so
each line gets exactly one of the three classes. -/
theorem classifyLine_trichotomy :
    ∀ (hints : List LineHint) (L n : Int), 1 ≤ n → n ≤ L →
      (classifyLine hints L n = .hit ↔ ∃ r ∈ hints, r.start ≤ n ∧ n ≤ r.«end»)
      ∧ (classifyLine hints L n = .context ↔
          (¬ ∃ r ∈ hints, r.start ≤ n ∧ n ≤ r.«end»)
          ∧ ∃ r ∈ hints, n = r.start - 1 ∨ n = r.«end» + 1)
      ∧ (classifyLine hints L n = .none ↔
          (¬ ∃ r ∈ hints, r.start ≤ n ∧ n ≤ r.«end»)
          ∧ ¬ ∃ r ∈ hints, n = r.start - 1 ∨ n = r.«end» + 1) := by
  intro hints L n h1 h2
  have HP : (hints.any fun range =>
      decide (range.start ≤ n) && decide (n ≤ range.«end»)) = true
      ↔ ∃ r ∈ hints, r.start ≤ n ∧ n ≤ r.«end» := by
    rw [List.any_eq_true]
    simp only [Bool.and_eq_true, decide_eq_true_eq]
  have HC : (hints.any fun range =>
      (decide (n = range.start - 1) && decide (1 ≤ n)) ||
      (decide (n = range.«end» + 1) && decide (n ≤ L))) = true
      ↔ ∃ r ∈ hints, n = r.start - 1 ∨ n = r.«end» + 1 := by
    rw [List.any_eq_true]
    simp only [Bool.or_eq_true, Bool.and_eq_true, decide_eq_true_eq]
    constructor
    · rintro ⟨r, hr, ⟨ha, _⟩ | ⟨ha, _⟩⟩
      · exact ⟨r, hr, Or.inl ha⟩
      · exact ⟨r, hr, Or.inr ha⟩
    · rintro ⟨r, hr, ha | ha⟩
      · exact ⟨r, hr, Or.inl ⟨ha, h1⟩⟩
      · exact ⟨r, hr, Or.inr ⟨ha, h2⟩⟩
  by_cases hp : ∃ r ∈ hints, r.start ≤ n ∧ n ≤ r.«end»
  · have hb : (hints.any fun range =>
        decide (range.start ≤ n) && decide (n ≤ range.«end»)) = true := HP.mpr hp
    simp only [classifyLine, hb, if_true]
    refine ⟨by simp [hp], by simp [hp], by simp [hp]⟩
  · have hb : (hints.any fun range =>
        decide (range.start ≤ n) && decide (n ≤ range.«end»)) = false := by
      rcases Bool.eq_false_or_eq_true (hints.any fun range =>
        decide (range.start ≤ n) && decide (n ≤ range.«end»)) with h | h
      · exact absurd (HP.mp h) hp
      · exact h
    by_cases hc : ∃ r ∈ hints, n = r.start - 1 ∨ n = r.«end» + 1
    · have hb2 : (hints.any fun range =>
          (decide (n = range.start - 1) && decide (1 ≤ n)) ||
          (decide (n = range.«end» + 1) && decide (n ≤ L))) = true := HC.mpr hc
      simp only [classifyLine, hb, hb2, if_true, Bool.false_eq_true, if_false]
      refine ⟨by simp [hp], by simp [hp, hc], by simp [hc]⟩
    · have hb2 : (hints.any fun range =>
          (decide (n = range.start - 1) && decide (1 ≤ n)) ||
          (decide (n = range.«end» + 1) && decide (n ≤ L))) = false := by
        rcases Bool.eq_false_or_eq_true (hints.any fun range =>
          (decide (n = range.start - 1) && decide (1 ≤ n)) ||
          (decide (n = range.«end» + 1) && decide (n ≤ L))) with h | h
        · exact absurd (HC.mp h) hc
        · exact h
      simp only [classifyLine, hb, hb2, Bool.false_eq_true, if_false]
      refine ⟨by simp [hp], by simp [hc], by simp [hp, hc]⟩

/-- C8 (witness): the theorem applied to the single hint `[2, 2]` in a
5-line document at line 1, which is classified `context`. -/
theorem classifyLine_trichotomy_witness :
    ((1 : Int) ≤ 1 ∧ (1 : Int) ≤ 5)
    ∧ (classifyLine [⟨2, 2, none⟩] 5 1 = .context ↔
        (¬ ∃ r ∈ [(⟨2, 2, none⟩ : LineHint)], r.start ≤ 1 ∧ 1 ≤ r.«end»)
        ∧ ∃ r ∈ [(⟨2, 2, none⟩ : LineHint)], (1 : Int) = r.start - 1 ∨ (1 : Int) = r.«end» + 1) :=
  ⟨⟨le_refl 1, by norm_num⟩,
   (classifyLine_trichotomy [⟨2, 2, none⟩] 5 1 (le_refl 1) (by norm_num)).2.1⟩

/-- C9: when the working text handed to `runLocateLines` is the empty
string, no locator request is issued and the line hints and the note are
both reset to empty. -/
theorem empty_code_skips_locate :
    ∀ svc : FetchOutcome, runLocateLines [] svc = ⟨false, [], []⟩ := by
  intro svc
  simp [runLocateLines]

/-- C9 (witness): the theorem applied to a concrete failing locate
endpoint — even then no error note is produced for empty text. -/
theorem empty_code_skips_locate_witness :
    runLocateLines [] (.resp false (some ("err".toList)) none) = ⟨false, [], []⟩ :=
  empty_code_skips_locate (.resp false (some ("err".toList)) none)

/-- C10: a line whose case-insensitive `NOTE:` prefix is preceded by any
leading whitespace is not recognized by the parser — it neither matches the
bullet pattern nor the note test, so the parse state is left unchanged. -/
theorem indented_note_line_ignored :
    ∀ (st : List LineHint × List Char) (pre body : List Char),
      pre ≠ [] → (∀ c ∈ pre, isSpace c = true) →
      noteKey.isPrefixOf (body.map jsUpper) = true →
      parseStep st (pre ++ body) = st := by
  intro st pre body hne hsp hpfx
  obtain ⟨b0, brest, rfl⟩ : ∃ b0 brest, body = b0 :: brest := by
    cases body with
    | nil => simp [noteKey, List.isPrefixOf] at hpfx
    | cons b0 brest => exact ⟨b0, brest, rfl⟩
  have hupper : jsUpper b0 = 'N' := by
    simp only [List.map_cons, noteKey, List.isPrefixOf, Bool.and_eq_true,
      beq_iff_eq] at hpfx
    exact hpfx.1.symm
  have hC : matchBullet (pre ++ b0 :: brest) = none := by
    rw [matchBullet.eq_def, dropWhile_isSpace_append pre _ hsp,
      List.dropWhile_cons, isSpace_of_jsUpper_N hupper]
    simp only [Bool.false_eq_true, if_false]
    have hdash := ne_dash_of_jsUpper_N hupper
    split
    · next heq =>
        injection heq with hh ht
        exact absurd hh hdash
    · rfl
  have hN : isNoteLine (pre ++ b0 :: brest) = false := by
    obtain ⟨p0, prest, rfl⟩ : ∃ p0 prest, pre = p0 :: prest := by
      cases pre with
      | nil => exact absurd rfl hne
      | cons p0 prest => exact ⟨p0, prest, rfl⟩
    have hsp0 := hsp p0 (List.mem_cons_self _ _)
    simp only [isNoteLine, List.cons_append, List.map_cons, noteKey,
      List.isPrefixOf]
    have hne' : ('N' == jsUpper p0) = false := by
      rw [beq_eq_false_iff_ne]
      exact fun hh => jsUpper_space_ne_N hsp0 hh.symm
    simp [hne']
  simp [parseStep, hC, hN]

/-- C10 (witness): the theorem applied to the line `" NOTE: b"` with a
one-space indent on a non-trivial parse state. -/
theorem indented_note_line_ignored_witness :
    (" ".toList ≠ [])
    ∧ (∀ c ∈ " ".toList, isSpace c = true)
    ∧ noteKey.isPrefixOf (("NOTE: b".toList).map jsUpper) = true
    ∧ parseStep ([], "a".toList) (" ".toList ++ "NOTE: b".toList) = ([], "a".toList) :=
  ⟨by decide, by decide, by decide,
   indented_note_line_ignored ([], "a".toList) (" ".toList) ("NOTE: b".toList)
     (by decide) (by decide) (by decide)⟩

end ClueAi
